import Mathlib

/-! The program `fsex`: the pack cipher, the directory pass and the unpack pass.

A shallow embedding of `src/fsex.cpp`.

* Bytes, 16-bit and 32-bit fields are natural numbers; every place where the
  C++ arithmetic wraps carries its `% 2 ^ w` explicitly.
* `size_t` is 64 bits wide (an x64 build).
* A pointer into the mapped view is the offset from `file.ptr`.
* The output folder is a file system state that every round of the unpack
  loop hands to the next; what `create_directories` and `DumpToWinFile` do to
  it is left to the collaborators.
-/

namespace Fsex

/-! ## Cipher (lines 150-169) -/

/-- The assignment `fullKey = (0x1D * fullKey + 0x1B) % 0x72EBCAFE` on a
`uint32_t`: the product and the sum are unsigned 32-bit operations and wrap
before the remainder is taken. -/
def rehash (fullKey : Nat) : Nat :=
  ((0x1D * fullKey % 2 ^ 32 + 0x1B) % 2 ^ 32) % 0x72EBCAFE

/-- The loops `for (j = 0; j < n; ++j) fullKey = ...` of `wmain` (lines 220-222
and 228-230): `n` advances, no byte touched. -/
def rehashTimes (n : Nat) (fullKey : Nat) : Nat :=
  rehash^[n] fullKey

/-- The union `Byte4`: a 32-bit word seen as four bytes, `b0` the lowest. -/
structure Byte4 where
  u : Nat

def Byte4.b0 (b : Byte4) : Nat := b.u % 256

def Byte4.b1 (b : Byte4) : Nat := b.u / 256 % 256

def Byte4.b2 (b : Byte4) : Nat := b.u / 65536 % 256

def Byte4.b3 (b : Byte4) : Nat := b.u / 16777216 % 256

/-- The byte `b4.b0 ^ b4.b1 ^ b4.b2 ^ b4.b3` that line 167 mixes into the data. -/
def keyByte (fullKey : Nat) : Nat :=
  let b4 : Byte4 := ⟨fullKey⟩
  b4.b0 ^^^ b4.b1 ^^^ b4.b2 ^^^ b4.b3

/-- The function `fsDecyper(data, dataSize, fullKey)`: the bytes after the call
and the value left in `fullKey`. The store into `bytes[i]` truncates to eight
bits. -/
def fsDecyper : List Nat → Nat → List Nat × Nat
  | [], fullKey => ([], fullKey)
  | byte :: rest, fullKey =>
    let fullKey := rehash fullKey
    let b4 : Byte4 := ⟨fullKey⟩
    let out := (b4.b0 ^^^ b4.b1 ^^^ b4.b2 ^^^ b4.b3 ^^^ byte) % 256
    let r := fsDecyper rest fullKey
    (out :: r.1, r.2)

/-- The constant `kDataKeyInit`. -/
def kDataKeyInit : Nat := 0xa2a2a2a2

/-! ## Packed headers (lines 21-70) -/

/-- A little-endian `uint16_t` at byte `pos` of a byte image. -/
def u16At (bytes : List Nat) (pos : Nat) : Nat :=
  bytes.getD pos 0 + 256 * bytes.getD (pos + 1) 0

/-- A little-endian `uint32_t` at byte `pos` of a byte image. -/
def u32At (bytes : List Nat) (pos : Nat) : Nat :=
  bytes.getD pos 0 + 256 * bytes.getD (pos + 1) 0 + 65536 * bytes.getD (pos + 2) 0
    + 16777216 * bytes.getD (pos + 3) 0

/-- The struct `FSPakHeader`, 22 bytes under `#pragma pack(1)`. -/
structure FSPakHeader where
  magic : Nat
  diskNum : Nat
  centralDisk : Nat
  numCentralRecordsHere : Nat
  numCentralRecordsTotal : Nat
  centralDirSize : Nat
  centralDirOffset : Nat
  commentLen : Nat
  deriving DecidableEq, Repr

/-- The struct `FSPakFileRecord`, 46 bytes under `#pragma pack(1)`. -/
structure FSPakFileRecord where
  magic : Nat
  verMade : Nat
  verMinimum : Nat
  flags : Nat
  compression : Nat
  lastModTime : Nat
  lastModDate : Nat
  checkSum : Nat
  sizeCompressed : Nat
  sizeUncompressed : Nat
  nameLength : Nat
  extraFieldLen : Nat
  commentLen : Nat
  disk : Nat
  intArrtibs : Nat
  exAttribs : Nat
  relOffset : Nat
  deriving DecidableEq, Repr

/-- The struct `FSPakLocalFileHeader`, 30 bytes under `#pragma pack(1)`. -/
structure FSPakLocalFileHeader where
  magic : Nat
  verMinimum : Nat
  flags : Nat
  compression : Nat
  lastModTime : Nat
  lastModDate : Nat
  checkSum : Nat
  sizeCompressed : Nat
  sizeUncompressed : Nat
  nameLength : Nat
  extraFieldLen : Nat
  deriving DecidableEq, Repr

/-- Reading the fields of an `FSPakHeader` out of its 22 bytes. -/
def FSPakHeader.ofBytes (b : List Nat) : FSPakHeader :=
  { magic := u32At b 0
    diskNum := u16At b 4
    centralDisk := u16At b 6
    numCentralRecordsHere := u16At b 8
    numCentralRecordsTotal := u16At b 10
    centralDirSize := u32At b 12
    centralDirOffset := u32At b 16
    commentLen := u16At b 20 }

/-- Reading the fields of an `FSPakFileRecord` out of its 46 bytes. -/
def FSPakFileRecord.ofBytes (b : List Nat) : FSPakFileRecord :=
  { magic := u32At b 0
    verMade := u16At b 4
    verMinimum := u16At b 6
    flags := u16At b 8
    compression := u16At b 10
    lastModTime := u16At b 12
    lastModDate := u16At b 14
    checkSum := u32At b 16
    sizeCompressed := u32At b 20
    sizeUncompressed := u32At b 24
    nameLength := u16At b 28
    extraFieldLen := u16At b 30
    commentLen := u16At b 32
    disk := u16At b 34
    intArrtibs := u16At b 36
    exAttribs := u32At b 38
    relOffset := u32At b 42 }

/-- Reading the fields of an `FSPakLocalFileHeader` out of its 30 bytes. -/
def FSPakLocalFileHeader.ofBytes (b : List Nat) : FSPakLocalFileHeader :=
  { magic := u32At b 0
    verMinimum := u16At b 4
    flags := u16At b 6
    compression := u16At b 8
    lastModTime := u16At b 10
    lastModDate := u16At b 12
    checkSum := u32At b 14
    sizeCompressed := u32At b 18
    sizeUncompressed := u32At b 22
    nameLength := u16At b 26
    extraFieldLen := u16At b 28 }

/-- The widths in bytes of the fields of `FSPakHeader`, in declaration order
(4 for `uint32_t`, 2 for `uint16_t`). -/
def FSPakHeader.fieldWidths : List Nat := [4, 2, 2, 2, 2, 4, 4, 2]

/-- The widths in bytes of the fields of `FSPakFileRecord`, in declaration
order. -/
def FSPakFileRecord.fieldWidths : List Nat := [4, 2, 2, 2, 2, 2, 2, 4, 4, 4, 2, 2, 2, 2, 2, 4, 4]

/-- The widths in bytes of the fields of `FSPakLocalFileHeader`, in
declaration order. -/
def FSPakLocalFileHeader.fieldWidths : List Nat := [4, 2, 2, 2, 2, 2, 4, 4, 4, 2, 2]

/-- Where field `k` of a struct starts under `#pragma pack(push, 1)`: right
after the fields declared before it. -/
def packedOffset (widths : List Nat) (k : Nat) : Nat :=
  (widths.take k).sum

/-- The `sizeof` of a struct under `#pragma pack(push, 1)`. -/
def packedSize (widths : List Nat) : Nat :=
  widths.sum

/-! ## The mapped archive (lines 73-78) -/

/-- The struct `MappedWinFile`: the length of the file and the memory seen
through `ptr`, as a function of the offset from the start of the view. Offsets
from `size` on lie outside the file; the program reads them all the same, since
no access is compared with `size`. -/
structure MappedWinFile where
  size : Nat
  ptr : Nat → Nat

/-- One `uint8_t` load at `file.ptr + off`; the address is a 64-bit quantity. -/
def MappedWinFile.byteAt (file : MappedWinFile) (off : Nat) : Nat :=
  file.ptr (off % 2 ^ 64) % 256

/-- The `len` bytes at `file.ptr + off`, as a struct copy or `memcpy` loads them. -/
def MappedWinFile.read (file : MappedWinFile) (off len : Nat) : List Nat :=
  (List.range len).map fun i => file.byteAt (off + i)

/-- A view whose memory holds `bytes` and zero after them. -/
def MappedWinFile.ofBytes (bytes : List Nat) : MappedWinFile :=
  { size := bytes.length, ptr := fun i => bytes.getD i 0 }

/-! ## Directory pass (lines 183-223) -/

/-- The struct `FileInfo`; `name` holds the characters of the `std::string`. -/
structure FileInfo where
  offset : Nat
  keyRehashCounter : Nat
  name : List Nat
  deriving DecidableEq, Repr

/-- The constant `MAX_PATH` of `Windows.h`, the length of `char tmp[MAX_PATH]`. -/
def MAX_PATH : Nat := 260

/-- The characters a `std::string` takes from a `char*`: those before the first
zero byte. -/
def cString (tmp : List Nat) : List Nat :=
  tmp.takeWhile fun c => c != 0

/-- Lines 187-188: the last 22 bytes of the view, decrypted from
`kDataKeyInit`, and the key left behind. `file.size - sizeof(FSPakHeader)` is
`size_t` arithmetic. -/
def readHeader (file : MappedWinFile) : FSPakHeader × Nat :=
  let r := fsDecyper (file.read ((file.size % 2 ^ 64 + 2 ^ 64 - 22) % 2 ^ 64) 22) kDataKeyInit
  (FSPakHeader.ofBytes r.1, r.2)

/-- The variables the loop of lines 198-223 carries from one round to the next. -/
structure TocState where
  tocPtr : Nat
  fullKey : Nat
  keyRehashCounter : Nat
  files : List FileInfo
  deriving DecidableEq, Repr

/-- Lines 199-200: the record at `tocPtr`, decrypted with the running key. -/
def fileRecAt (file : MappedWinFile) (st : TocState) : FSPakFileRecord :=
  FSPakFileRecord.ofBytes (fsDecyper (file.read st.tocPtr 46) st.fullKey).1

/-- Lines 203-206: the `nameLength` bytes after the record, decrypted in `tmp`
with the key the record left. -/
def nameBytesAt (file : MappedWinFile) (st : TocState) : List Nat :=
  let dec := fsDecyper (file.read st.tocPtr 46) st.fullKey
  (fsDecyper (file.read (st.tocPtr + 46) (FSPakFileRecord.ofBytes dec.1).nameLength) dec.2).1

/-- One round of the loop of lines 198-223, for a name that fits `tmp`. -/
def tocBody (file : MappedWinFile) (st : TocState) : TocState :=
  let dec := fsDecyper (file.read st.tocPtr 46) st.fullKey
  let fileRec := FSPakFileRecord.ofBytes dec.1
  let tocPtr := st.tocPtr + 46
  let raw := file.read tocPtr fileRec.nameLength
  let tocPtr := tocPtr + fileRec.nameLength
  let tmp := fsDecyper raw dec.2
  let files :=
    if fileRec.sizeUncompressed ≠ 0 then
      st.files ++ [{ offset := fileRec.relOffset
                     keyRehashCounter := st.keyRehashCounter
                     name := cString tmp.1 }]
    else st.files
  let keyRehashCounter := (st.keyRehashCounter + (fileRec.nameLength + 30) % 2 ^ 64) % 2 ^ 64
  let keyRehashTimes := fileRec.extraFieldLen + fileRec.commentLen
  { tocPtr := tocPtr
    fullKey := rehashTimes keyRehashTimes tmp.2
    keyRehashCounter := keyRehashCounter
    files := files }

/-- How a run of the directory pass ends. -/
inductive Outcome (α : Type) where
  /-- The loop ran all its rounds. -/
  | completed (a : α)
  /-- A round wrote past the end of `char tmp[MAX_PATH]` (the `memcpy` of line
  203 or the terminator of line 205): undefined behaviour in C++. The program
  reports nothing; what it does next has no meaning. -/
  | tmpOverrun
  deriving DecidableEq, Repr

/-- The loop of lines 198-223, `n` rounds from `st`. The writes into `tmp` stay
inside the array exactly when `nameLength < MAX_PATH`. -/
def tocLoop (file : MappedWinFile) : Nat → TocState → Outcome TocState
  | 0, st => .completed st
  | n + 1, st =>
    if (fileRecAt file st).nameLength < MAX_PATH then tocLoop file n (tocBody file st)
    else .tmpOverrun

/-- The loop variables as line 197 leaves them, for the decrypted end record
`hdr` and the key its decryption left. `hdr.centralDirSize +
sizeof(FSPakHeader)` is `size_t` arithmetic. -/
def tocInit (hdr : FSPakHeader) (fullKey : Nat) : TocState :=
  { tocPtr := hdr.centralDirOffset
    fullKey := fullKey
    keyRehashCounter := (hdr.centralDirSize + 22) % 2 ^ 64
    files := [] }

/-- Lines 190-223: the walk over the directory for a decrypted end record. -/
def dirPass (file : MappedWinFile) (hdr : FSPakHeader) (fullKey : Nat) : Outcome TocState :=
  tocLoop file hdr.numCentralRecordsHere (tocInit hdr fullKey)

/-- Lines 183-223 of `wmain`: the directory pass over a mapped file. -/
def readToc (file : MappedWinFile) : Outcome TocState :=
  dirPass file (readHeader file).1 (readHeader file).2

/-- The number of rounds of the directory loop, `hdr.numCentralRecordsHere`. -/
def numRecords (file : MappedWinFile) : Nat :=
  (readHeader file).1.numCentralRecordsHere

/-- The loop variables at the start of round `i` of the directory pass. -/
def tocAt (file : MappedWinFile) (i : Nat) : TocState :=
  (tocBody file)^[i] (tocInit (readHeader file).1 (readHeader file).2)

/-- The directory record that round `i` decrypts. -/
def recordAt (file : MappedWinFile) (i : Nat) : FSPakFileRecord :=
  fileRecAt file (tocAt file i)

/-- The `FileInfo` lines 209-212 fill in a round entered with `st`. -/
def entryAt (file : MappedWinFile) (st : TocState) : FileInfo :=
  { offset := (fileRecAt file st).relOffset
    keyRehashCounter := st.keyRehashCounter
    name := cString (nameBytesAt file st) }

/-- The replay count written out from scratch for round `i`:
`centralDirSize + 22` and `30 + nameLength` for every earlier record. -/
def replayCount (file : MappedWinFile) (i : Nat) : Nat :=
  (readHeader file).1.centralDirSize + 22
    + ((List.range i).map fun j => 30 + (recordAt file j).nameLength).sum

/-- The number of key advances made before round `i`, written out from
scratch: 22 for the end record and `46 + nameLength + extraFieldLen +
commentLen` for every earlier record. -/
def keySteps (file : MappedWinFile) (i : Nat) : Nat :=
  22 + ((List.range i).map fun j =>
    46 + (recordAt file j).nameLength + (recordAt file j).extraFieldLen
      + (recordAt file j).commentLen).sum

/-- The offset of the record of round `i`, written out from scratch:
`centralDirOffset` and `46 + nameLength` for every earlier record. -/
def tocOffset (file : MappedWinFile) (i : Nat) : Nat :=
  (readHeader file).1.centralDirOffset
    + ((List.range i).map fun j => 46 + (recordAt file j).nameLength).sum

/-! ## Unpack pass (lines 225-273) -/

/-- The collaborators of the unpack pass, over a file system whose states are
`σ`. `create_directories disk name` is `fs::create_directories` on the parent
of `outputPath / name` (line 242): it gives the file system it leaves; its
error code is dropped by the program. `DumpToWinFile disk name data` is the
function of lines 136-148 on `outputPath / name`: it tells whether the file
was written in full and gives the file system it leaves. `inflate input
availOut` stands for `inflateInit2_(-15)`, `inflate(Z_FINISH)`, `inflateEnd`
on the `avail_in` bytes at `next_in` with room for `availOut` bytes, and gives
the return code with the bytes produced. -/
structure Collaborators (σ : Type) where
  create_directories : σ → List Nat → σ
  DumpToWinFile : σ → List Nat → List Nat → Bool × σ
  inflate : List Nat → Nat → Int × List Nat

/-- The zlib constant `Z_STREAM_END`. -/
def Z_STREAM_END : Int := 1

/-- The fields of `z_stream streamIn` that lines 254-257 set; the buffers are
offsets from `file.ptr` and lengths. -/
structure ZStream where
  next_in : Nat
  avail_in : Nat
  avail_out : Nat
  deriving DecidableEq, Repr

/-- What the program prints after `Extracting ...` for one file. -/
inductive Report where
  | succeeded
  | writeFailed
  | decompressionFailed
  deriving DecidableEq, Repr

/-- What one round of the loop of lines 226-273 computes: the key the replay
loop derives, the decrypted local header and its bytes, `dataPtr`, the stream
set up for zlib (compressed entries only), the data handed to `DumpToWinFile`
(when it is called) and the line printed. -/
structure Unpacked where
  name : List Nat
  derivedKey : Nat
  headerBytes : List Nat
  localHeader : FSPakLocalFileHeader
  dataPtr : Nat
  streamIn : Option ZStream
  dumped : Option (List Nat)
  report : Report
  deriving DecidableEq, Repr

/-- The vector `u_data` after `inflate`: `n` zero bytes, the produced bytes
written over its front. -/
def uData (n : Nat) (produced : List Nat) : List Nat :=
  (produced ++ List.replicate (n - produced.length) 0).take n

set_option linter.unusedVariables false in
/-- One round of the loop of lines 226-273 for the entry `fi`, entered with
`fullKey` as the previous code left it and with the file system `disk` as the
earlier rounds left it; gives the round's results, the new value of `fullKey`
and the file system it leaves. -/
def unpackBody {σ : Type} (env : Collaborators σ) (file : MappedWinFile) (fullKey : Nat)
    (disk : σ) (fi : FileInfo) : Unpacked × Nat × σ :=
  let fullKey := kDataKeyInit
  let fullKey := rehashTimes fi.keyRehashCounter fullKey
  let dec := fsDecyper (file.read fi.offset 30) fullKey
  let localHeader := FSPakLocalFileHeader.ofBytes dec.1
  let dataPtr := fi.offset + 30 + (localHeader.nameLength + localHeader.extraFieldLen)
  let disk := env.create_directories disk fi.name
  if localHeader.compression = 0 then
    let data := file.read dataPtr localHeader.sizeUncompressed
    let written := env.DumpToWinFile disk fi.name data
    ({ name := fi.name, derivedKey := fullKey, headerBytes := dec.1, localHeader := localHeader
       dataPtr := dataPtr, streamIn := none, dumped := some data
       report := if written.1 then .succeeded else .writeFailed }, dec.2, written.2)
  else
    let streamIn : ZStream :=
      { next_in := dataPtr
        avail_in := localHeader.sizeCompressed
        avail_out := localHeader.sizeUncompressed }
    let res := env.inflate (file.read streamIn.next_in streamIn.avail_in) streamIn.avail_out
    let u_data := uData localHeader.sizeUncompressed res.2
    if res.1 = Z_STREAM_END then
      let written := env.DumpToWinFile disk fi.name u_data
      ({ name := fi.name, derivedKey := fullKey, headerBytes := dec.1, localHeader := localHeader
         dataPtr := dataPtr, streamIn := some streamIn, dumped := some u_data
         report := if written.1 then .succeeded else .writeFailed }, dec.2, written.2)
    else
      ({ name := fi.name, derivedKey := fullKey, headerBytes := dec.1, localHeader := localHeader
         dataPtr := dataPtr, streamIn := some streamIn, dumped := none
         report := .decompressionFailed }, dec.2, disk)

/-- The loop `for (const auto& fi : files)` of lines 226-273; `fullKey` is the
one variable shared by the rounds, and the file system is what each round
leaves to the next. -/
def unpackLoop {σ : Type} (env : Collaborators σ) (file : MappedWinFile) :
    List FileInfo → Nat → σ → List Unpacked × Nat × σ
  | [], fullKey, disk => ([], fullKey, disk)
  | fi :: rest, fullKey, disk =>
    let r := unpackBody env file fullKey disk fi
    let rs := unpackLoop env file rest r.2.1 r.2.2
    (r.1 :: rs.1, rs.2)

/-- The body of `wmain` for a file that was mapped, started on the file system
`disk`: the directory pass, then the unpack pass over the entries it
collected, `fullKey` running on. -/
def wmain {σ : Type} (env : Collaborators σ) (file : MappedWinFile) (disk : σ) :
    Outcome (List Unpacked) :=
  match readToc file with
  | .completed st => .completed (unpackLoop env file st.files st.fullKey disk).1
  | .tmpOverrun => .tmpOverrun

/-! ## Sample archives

Each is a pack as the program receives it, given byte by byte (encrypted). -/

/-- A pack of 275 bytes with three directory records: the directory marker
`d/` (size 0), the stored file `a.txt` (3 bytes, `extraFieldLen = 1` and
`commentLen = 2` in its directory record) and the deflated file `b` (4 bytes
packed, 6 unpacked, two extra bytes after its local name). Local headers are at
0, 32 and 70, the directory at 107, `centralDirSize` is 149. -/
def sampleBytes : List Nat :=
  [95, 2, 75, 178, 237, 236, 191, 62, 19, 219, 240, 165, 92, 249, 161, 148,
   99, 108, 13, 181, 20, 231, 130, 56, 145, 218, 254, 166, 38, 54, 225, 102,
   21, 33, 10, 91, 5, 207, 113, 68, 224, 149, 175, 151, 64, 72, 233, 93,
   54, 232, 93, 136, 114, 15, 54, 116, 115, 4, 206, 204, 31, 4, 0, 7,
   147, 82, 250, 104, 105, 33, 167, 33, 193, 167, 28, 88, 234, 148, 177, 177,
   101, 216, 72, 122, 121, 106, 52, 11, 138, 170, 161, 211, 13, 183, 26, 67,
   187, 23, 8, 171, 104, 238, 239, 193, 194, 195, 196, 154, 228, 125, 197, 179,
   143, 116, 145, 197, 120, 163, 145, 75, 59, 159, 190, 34, 155, 214, 244, 41,
   234, 245, 173, 178, 121, 181, 89, 250, 115, 255, 57, 28, 187, 65, 25, 2,
   104, 181, 126, 220, 187, 53, 60, 35, 236, 145, 202, 53, 50, 37, 74, 123,
   44, 67, 94, 80, 183, 216, 88, 209, 80, 206, 52, 144, 180, 47, 236, 37,
   184, 10, 224, 13, 207, 22, 170, 149, 216, 170, 236, 253, 73, 92, 179, 131,
   66, 71, 152, 173, 100, 90, 58, 220, 7, 88, 207, 93, 114, 149, 119, 205,
   69, 118, 13, 86, 179, 111, 15, 136, 124, 8, 222, 12, 182, 182, 186, 63,
   55, 193, 43, 213, 111, 222, 84, 12, 211, 70, 254, 100, 145, 146, 155, 227,
   101, 154, 219, 245, 191, 122, 113, 166, 93, 134, 78, 98, 25, 73, 94, 205,
   214, 19, 95, 143, 237, 145, 19, 244, 55, 102, 157, 174, 120, 8, 141, 5,
   111, 124, 154]

/-- The mapped view of `sampleBytes`. -/
def sampleFile : MappedWinFile := MappedWinFile.ofBytes sampleBytes

/-- A pack of 101 bytes with one stored file `x` (1 byte) whose end record
decrypts to the magic 0 instead of `0x06054b50`. Local header at 0, directory
at 32. -/
def badMagicBytes : List Nat :=
  [181, 46, 122, 32, 92, 111, 44, 87, 94, 80, 183, 184, 88, 129, 116, 253,
   70, 197, 134, 13, 253, 38, 185, 10, 224, 14, 206, 22, 170, 144, 160, 90,
   154, 228, 125, 197, 179, 143, 116, 145, 197, 120, 163, 145, 75, 59, 159, 190,
   34, 155, 214, 244, 40, 234, 245, 173, 179, 121, 181, 89, 249, 115, 255, 57,
   28, 187, 65, 25, 2, 104, 181, 126, 220, 187, 53, 60, 35, 236, 141, 25,
   21, 200, 208, 19, 95, 143, 237, 147, 19, 246, 55, 220, 157, 174, 120, 67,
   141, 5, 111, 124, 154]

/-- The mapped view of `badMagicBytes`. -/
def badMagicFile : MappedWinFile := MappedWinFile.ofBytes badMagicBytes

/-- A pack of 103 bytes with one stored file whose directory record has
`nameLength = 2` and whose two name bytes decrypt to `a` and a zero byte. -/
def nulNameBytes : List Nat :=
  [53, 50, 39, 76, 123, 44, 87, 94, 80, 183, 216, 56, 209, 96, 138, 87,
   246, 150, 12, 253, 38, 184, 11, 224, 14, 207, 20, 170, 144, 216, 202, 236,
   90, 154, 228, 125, 197, 179, 143, 116, 145, 197, 120, 163, 145, 75, 59, 159,
   190, 34, 155, 214, 244, 40, 234, 245, 173, 179, 121, 181, 89, 250, 115, 255,
   57, 28, 187, 65, 25, 2, 104, 181, 126, 220, 187, 53, 60, 35, 236, 148,
   229, 73, 94, 205, 214, 19, 95, 143, 237, 147, 19, 246, 55, 195, 157, 174,
   120, 66, 141, 5, 111, 124, 154]

/-- The mapped view of `nulNameBytes`. -/
def nulNameFile : MappedWinFile := MappedWinFile.ofBytes nulNameBytes

/-- A pack of 368 bytes: one directory record at offset 0 whose `nameLength`
decrypts to 300, 300 name bytes, the end record (one record, directory at 0). -/
def longNameBytes : List Nat :=
  [154, 228, 125, 197, 179, 143, 116, 145, 197, 120, 163, 145, 75, 59, 159, 190,
   34, 155, 214, 244, 40, 234, 245, 173, 179, 121, 181, 89, 212, 114, 255, 57,
   28, 187, 65, 25, 2, 104, 181, 126, 220, 187, 53, 60, 35, 236]
  ++ List.replicate 300 65 ++
  [73, 94, 205, 214, 19, 95, 143, 237, 147, 19, 246, 55, 169, 156, 174, 120,
   99, 141, 5, 111, 124, 154]

/-- The mapped view of `longNameBytes`. -/
def longNameFile : MappedWinFile := MappedWinFile.ofBytes longNameBytes

/-- Collaborators for the samples, over a file system with a single state:
every write succeeds; `inflate` reports `Z_STREAM_END` with as many bytes `7`
as there is room. -/
def sampleEnv : Collaborators Unit :=
  { create_directories := fun disk _ => disk
    DumpToWinFile := fun disk _ _ => (true, disk)
    inflate := fun _ availOut => (Z_STREAM_END, List.replicate availOut 7) }

theorem keyByte_lt (k : Nat) : keyByte k < 256 := by
  have h0 : k % 256 < 2 ^ 8 := Nat.mod_lt _ (by norm_num)
  have h1 : k / 256 % 256 < 2 ^ 8 := Nat.mod_lt _ (by norm_num)
  have h2 : k / 65536 % 256 < 2 ^ 8 := Nat.mod_lt _ (by norm_num)
  have h3 : k / 16777216 % 256 < 2 ^ 8 := Nat.mod_lt _ (by norm_num)
  have := Nat.xor_lt_two_pow (Nat.xor_lt_two_pow (Nat.xor_lt_two_pow h0 h1) h2) h3
  simpa [keyByte, Byte4.b0, Byte4.b1, Byte4.b2, Byte4.b3] using this

theorem fsDecyper_nil (S : Nat) : fsDecyper [] S = ([], S) := rfl

theorem fsDecyper_cons (b : Nat) (B : List Nat) (S : Nat) :
    fsDecyper (b :: B) S =
      ((keyByte (rehash S) ^^^ b) % 256 :: (fsDecyper B (rehash S)).1,
        (fsDecyper B (rehash S)).2) := rfl

theorem rehashTimes_zero (S : Nat) : rehashTimes 0 S = S := rfl

theorem rehashTimes_succ (n S : Nat) : rehashTimes (n + 1) S = rehashTimes n (rehash S) := rfl

theorem rehashTimes_succ_last (n S : Nat) :
    rehashTimes (n + 1) S = rehash (rehashTimes n S) := by
  simp [rehashTimes, Function.iterate_succ_apply']

theorem rehashTimes_add (m n S : Nat) :
    rehashTimes (m + n) S = rehashTimes n (rehashTimes m S) := by
  simp [rehashTimes, Nat.add_comm m n, Function.iterate_add_apply]

theorem fsDecyper_length (B : List Nat) (S : Nat) : (fsDecyper B S).1.length = B.length := by
  induction B generalizing S with
  | nil => rfl
  | cons b B ih => simp [fsDecyper_cons, ih]

theorem fsDecyper_key (B : List Nat) (S : Nat) :
    (fsDecyper B S).2 = rehashTimes B.length S := by
  induction B generalizing S with
  | nil => rfl
  | cons b B ih => simp [fsDecyper_cons, ih, rehashTimes_succ]

theorem fsDecyper_lt (B : List Nat) (S : Nat) : ∀ x ∈ (fsDecyper B S).1, x < 256 := by
  induction B generalizing S with
  | nil => simp [fsDecyper_nil]
  | cons b B ih =>
    intro x hx
    rw [fsDecyper_cons] at hx
    rcases List.mem_cons.mp hx with h | h
    · rw [h]; exact Nat.mod_lt _ (by norm_num)
    · exact ih _ x h

theorem fsDecyper_getElem? (B : List Nat) (S i : Nat) :
    (fsDecyper B S).1[i]? =
      B[i]?.map fun b => (keyByte (rehashTimes (i + 1) S) ^^^ b) % 256 := by
  induction B generalizing S i with
  | nil => simp [fsDecyper_nil]
  | cons b B ih =>
    cases i with
    | zero => simp [fsDecyper_cons, rehashTimes]
    | succ i => simp [fsDecyper_cons, ih, rehashTimes_succ]

theorem xor_byte_lt (k b : Nat) (hk : k < 256) (hb : b < 256) : k ^^^ b < 256 := by
  have h : k ^^^ b < 2 ^ 8 := Nat.xor_lt_two_pow (by simpa using hk) (by simpa using hb)
  simpa using h

theorem xor_byte_cancel (k b : Nat) (hk : k < 256) (hb : b < 256) :
    (k ^^^ ((k ^^^ b) % 256)) % 256 = b := by
  rw [Nat.mod_eq_of_lt (xor_byte_lt k b hk hb), ← Nat.xor_assoc, Nat.xor_self, Nat.zero_xor,
    Nat.mod_eq_of_lt hb]

theorem fsDecyper_involutive (B : List Nat) (S : Nat) (hB : ∀ b ∈ B, b < 256) :
    (fsDecyper (fsDecyper B S).1 S).1 = B := by
  induction B generalizing S with
  | nil => rfl
  | cons b B ih =>
    have hb : b < 256 := hB b (List.mem_cons_self _ _)
    have hB2 : ∀ x ∈ B, x < 256 := fun x hx => hB x (List.mem_cons_of_mem _ hx)
    simp only [fsDecyper_cons]
    rw [xor_byte_cancel _ _ (keyByte_lt _) hb, ih _ hB2]

/-! ## Claims about the cipher -/

/-- C1: for every byte buffer `B` (the empty one included) and every starting
state `S` (every 32-bit value among them), `fsDecyper` over `B` from `S`, then
again over the result from a key reset to `S`, gives back exactly `B`. -/
theorem fsDecyper_round_trip (B : List Nat) (S : Nat) (hB : ∀ b ∈ B, b < 256) :
    (fsDecyper (fsDecyper B S).1 S).1 = B :=
  fsDecyper_involutive B S hB

theorem fsDecyper_round_trip_witness :
    (∀ b ∈ [0x50, 0x4b, 0x05, 0x06, 0xff], b < 256) ∧
      (fsDecyper (fsDecyper [0x50, 0x4b, 0x05, 0x06, 0xff] kDataKeyInit).1 kDataKeyInit).1
        = [0x50, 0x4b, 0x05, 0x06, 0xff] :=
  ⟨by decide, fsDecyper_round_trip [0x50, 0x4b, 0x05, 0x06, 0xff] kDataKeyInit (by decide)⟩

/-- C2, as stated, fails: from the initial key `0xA2A2A2A2` one advance gives
1819044981, while `(29 * s + 27) mod 0x72EBCAFE` on the exact integer is
78178759. -/
theorem rehash_not_exact :
    rehash 0xA2A2A2A2 = 1819044981 ∧ (29 * 0xA2A2A2A2 + 27) % 0x72EBCAFE = 78178759 ∧
      rehash 0xA2A2A2A2 ≠ (29 * 0xA2A2A2A2 + 27) % 0x72EBCAFE := by
  decide

/-- C2, amended: for every state `s` (every 32-bit value among them), one
advance (the one `fsDecyper` makes per byte and the one the replay and burn
loops make per round) yields
`((29 * s + 27) mod 2^32) mod 0x72EBCAFE`, the sum being cut to 32 bits before
the remainder; it is `(29 * s + 27) mod 0x72EBCAFE` on the exact integer
whenever `29 * s + 27` is below `2^32`. -/
theorem rehash_wraps (s : Nat) :
    rehash s = (29 * s + 27) % 2 ^ 32 % 0x72EBCAFE ∧
      (29 * s + 27 < 2 ^ 32 → rehash s = (29 * s + 27) % 0x72EBCAFE) ∧
      (∀ b : Nat, (fsDecyper [b] s).2 = rehash s) ∧
      rehashTimes 1 s = rehash s ∧
      rehash s < 2 ^ 32 := by
  have h : rehash s = (29 * s + 27) % 2 ^ 32 % 0x72EBCAFE := by
    simp only [rehash]
    norm_num [Nat.add_mod]
  refine ⟨h, ?_, fun b => rfl, rfl, ?_⟩
  · intro hlt
    rw [h, Nat.mod_eq_of_lt hlt]
  · have : rehash s < 0x72EBCAFE := Nat.mod_lt _ (by norm_num)
    exact lt_trans this (by norm_num)

/-- C3: for every buffer `B` of length `n` and starting state `S`, `fsDecyper`
gives a buffer of length `n` whose byte `i` is `B[i] XOR b0 XOR b1 XOR b2 XOR
b3`, the `b`s being the four bytes of `S` advanced `i + 1` times; run again
from `S` on its own output it gives `B` back, so it encrypts and decrypts. -/
theorem fsDecyper_bytes (B : List Nat) (S : Nat) (hB : ∀ b ∈ B, b < 256) :
    (fsDecyper B S).1.length = B.length ∧
      (∀ i (h : i < B.length),
        (fsDecyper B S).1[i]? =
          some (B[i] ^^^ (Byte4.mk (rehashTimes (i + 1) S)).b0
            ^^^ (Byte4.mk (rehashTimes (i + 1) S)).b1
            ^^^ (Byte4.mk (rehashTimes (i + 1) S)).b2
            ^^^ (Byte4.mk (rehashTimes (i + 1) S)).b3)) ∧
      (fsDecyper (fsDecyper B S).1 S).1 = B := by
  refine ⟨fsDecyper_length B S, ?_, fsDecyper_involutive B S hB⟩
  intro i h
  have hb : B[i] < 256 := hB _ (List.getElem_mem h)
  rw [fsDecyper_getElem?, List.getElem?_eq_getElem h, Option.map_some']
  rw [Nat.mod_eq_of_lt (xor_byte_lt _ _ (keyByte_lt _) hb)]
  simp only [keyByte]
  congr 1
  ac_rfl

theorem fsDecyper_bytes_witness :
    (∀ b ∈ [0x50, 0x4b, 0x05], b < 256) ∧ (fsDecyper [0x50, 0x4b, 0x05] 7).1.length = 3 :=
  ⟨by decide, (fsDecyper_bytes [0x50, 0x4b, 0x05] 7 (by decide)).1⟩

/-! ## Lemmas on decoded fields -/

theorem getD_lt (l : List Nat) (h : ∀ x ∈ l, x < 256) (i : Nat) : l.getD i 0 < 256 := by
  rw [List.getD_eq_getElem?_getD]
  cases hi : l[i]? with
  | none => simp
  | some x => simpa using h x (List.getElem?_mem hi)

theorem u16At_lt (l : List Nat) (h : ∀ x ∈ l, x < 256) (pos : Nat) : u16At l pos < 65536 := by
  have h0 := getD_lt l h pos
  have h1 := getD_lt l h (pos + 1)
  unfold u16At
  omega

theorem u32At_lt (l : List Nat) (h : ∀ x ∈ l, x < 256) (pos : Nat) :
    u32At l pos < 4294967296 := by
  have h0 := getD_lt l h pos
  have h1 := getD_lt l h (pos + 1)
  have h2 := getD_lt l h (pos + 2)
  have h3 := getD_lt l h (pos + 3)
  unfold u32At
  omega

theorem read_length (file : MappedWinFile) (off len : Nat) :
    (file.read off len).length = len := by
  simp [MappedWinFile.read]

theorem read_getElem? (file : MappedWinFile) (off len j : Nat) (hj : j < len) :
    (file.read off len)[j]? = some (file.byteAt (off + j)) := by
  simp [MappedWinFile.read, List.getElem?_map, List.getElem?_range hj]

theorem byteAt_lt (file : MappedWinFile) (off : Nat) : file.byteAt off < 256 :=
  Nat.mod_lt _ (by norm_num)

theorem nameLength_lt (file : MappedWinFile) (st : TocState) :
    (fileRecAt file st).nameLength < 65536 :=
  u16At_lt _ (fsDecyper_lt _ _) _

theorem centralDirSize_lt (file : MappedWinFile) :
    (readHeader file).1.centralDirSize < 4294967296 :=
  u32At_lt _ (fsDecyper_lt _ _) _

theorem numRecords_lt (file : MappedWinFile) : numRecords file < 65536 :=
  u16At_lt _ (fsDecyper_lt _ _) _

theorem readHeader_key (file : MappedWinFile) :
    (readHeader file).2 = rehashTimes 22 kDataKeyInit := by
  simp [readHeader, fsDecyper_key, read_length]

/-! ## Lemmas on the directory loop -/

theorem tocBody_tocPtr (file : MappedWinFile) (st : TocState) :
    (tocBody file st).tocPtr = st.tocPtr + 46 + (fileRecAt file st).nameLength := rfl

theorem tocBody_counter (file : MappedWinFile) (st : TocState) :
    (tocBody file st).keyRehashCounter =
      (st.keyRehashCounter + ((fileRecAt file st).nameLength + 30) % 2 ^ 64) % 2 ^ 64 := rfl

theorem tocBody_files (file : MappedWinFile) (st : TocState) :
    (tocBody file st).files =
      if (fileRecAt file st).sizeUncompressed ≠ 0 then st.files ++ [entryAt file st]
      else st.files := rfl

theorem tocBody_fullKey (file : MappedWinFile) (st : TocState) :
    (tocBody file st).fullKey =
      rehashTimes (46 + (fileRecAt file st).nameLength + (fileRecAt file st).extraFieldLen
        + (fileRecAt file st).commentLen) st.fullKey := by
  simp only [tocBody, fileRecAt, fsDecyper_key, read_length]
  rw [← rehashTimes_add, ← rehashTimes_add]
  congr 1
  omega

theorem nameBytesAt_eq (file : MappedWinFile) (st : TocState) :
    nameBytesAt file st =
      (fsDecyper (file.read (st.tocPtr + 46) (fileRecAt file st).nameLength)
        (rehashTimes 46 st.fullKey)).1 := by
  simp only [nameBytesAt, fileRecAt, fsDecyper_key, read_length]

theorem tocAt_zero (file : MappedWinFile) :
    tocAt file 0 = tocInit (readHeader file).1 (readHeader file).2 := rfl

theorem tocAt_succ (file : MappedWinFile) (i : Nat) :
    tocAt file (i + 1) = tocBody file (tocAt file i) := by
  simp [tocAt, Function.iterate_succ_apply']

theorem replayCount_succ (file : MappedWinFile) (i : Nat) :
    replayCount file (i + 1) = replayCount file i + (30 + (recordAt file i).nameLength) := by
  simp [replayCount, List.range_succ, Nat.add_assoc]

theorem replayCount_le (file : MappedWinFile) (i : Nat) :
    replayCount file i ≤ 4294967296 + 22 + i * 65566 := by
  induction i with
  | zero =>
    have := centralDirSize_lt file
    simp [replayCount]
    omega
  | succ i ih =>
    have := nameLength_lt file (tocAt file i)
    rw [replayCount_succ]
    simp only [recordAt]
    omega

theorem tocAt_counter (file : MappedWinFile) (i : Nat) (hi : i ≤ 65536) :
    (tocAt file i).keyRehashCounter = replayCount file i := by
  induction i with
  | zero =>
    have := centralDirSize_lt file
    simp only [tocAt_zero, tocInit, replayCount, List.range_zero, List.map_nil, List.sum_nil]
    omega
  | succ i ih =>
    have hn := nameLength_lt file (tocAt file i)
    have hb := replayCount_le file i
    rw [tocAt_succ, tocBody_counter, ih (by omega), replayCount_succ]
    simp only [recordAt]
    omega

theorem tocLoop_completed (file : MappedWinFile) (n : Nat) (st : TocState)
    (h : ∀ i < n, (fileRecAt file ((tocBody file)^[i] st)).nameLength < MAX_PATH) :
    tocLoop file n st = .completed ((tocBody file)^[n] st) := by
  induction n generalizing st with
  | zero => rfl
  | succ n ih =>
    have h0 : (fileRecAt file st).nameLength < MAX_PATH := h 0 (Nat.succ_pos n)
    rw [tocLoop, if_pos h0, ih (tocBody file st) fun i hi => h (i + 1) (Nat.succ_lt_succ hi)]
    rfl

theorem tocLoop_overrun (file : MappedWinFile) (n : Nat) (st : TocState) (i : Nat) (hi : i < n)
    (h : ¬ (fileRecAt file ((tocBody file)^[i] st)).nameLength < MAX_PATH) :
    tocLoop file n st = .tmpOverrun := by
  induction n generalizing st i with
  | zero => exact absurd hi (Nat.not_lt_zero i)
  | succ n ih =>
    rw [tocLoop]
    by_cases h0 : (fileRecAt file st).nameLength < MAX_PATH
    · rw [if_pos h0]
      cases i with
      | zero => exact absurd h0 h
      | succ i => exact ih (tocBody file st) i (Nat.lt_of_succ_lt_succ hi) h
    · rw [if_neg h0]

theorem filterMap_ite_eq (p : Nat → Prop) [DecidablePred p] (f : Nat → FileInfo)
    (l : List Nat) :
    (l.filterMap fun i => if p i then some (f i) else none) = (l.filter fun i => p i).map f := by
  induction l with
  | nil => rfl
  | cons a l ih =>
    by_cases ha : p a
    · simp [List.filterMap_cons, List.filter_cons, ha, ih]
    · simp [List.filterMap_cons, List.filter_cons, ha, ih]

theorem tocAt_files (file : MappedWinFile) (n : Nat) :
    (tocAt file n).files =
      ((List.range n).filter fun i => (recordAt file i).sizeUncompressed ≠ 0).map
        fun i => entryAt file (tocAt file i) := by
  induction n with
  | zero => rfl
  | succ n ih =>
    rw [tocAt_succ, tocBody_files, ih, List.range_succ, List.filter_append, List.map_append]
    by_cases hz : (fileRecAt file (tocAt file n)).sizeUncompressed ≠ 0
    · simp [recordAt, hz]
    · simp [recordAt, hz]

theorem readToc_completed (file : MappedWinFile)
    (hfit : ∀ j < numRecords file, (recordAt file j).nameLength < MAX_PATH) :
    readToc file = .completed (tocAt file (numRecords file)) :=
  tocLoop_completed file _ _ hfit

theorem readToc_overrun (file : MappedWinFile) (j : Nat) (hj : j < numRecords file)
    (h : ¬ (recordAt file j).nameLength < MAX_PATH) : readToc file = .tmpOverrun :=
  tocLoop_overrun file _ _ j hj h

/-! ## Claims about the directory pass -/

/-- C4: for every directory whose names fit the scratch buffer, the pass
completes and the rehash counters stored in its entries are, in order,
`centralDirSize + 22 + sum over j < i of (30 + nameLength j)` for the records
`i` that yield an entry (those of non-zero size), the sum running over every
earlier record, zero-size ones included; the running counter has that value at
the start of every round. -/
theorem keyRehashCounter_replay (file : MappedWinFile)
    (hfit : ∀ j < numRecords file, (recordAt file j).nameLength < MAX_PATH) :
    ∃ st, readToc file = .completed st ∧
      st.files.map (fun fi => fi.keyRehashCounter) =
        ((List.range (numRecords file)).filter
            fun i => (recordAt file i).sizeUncompressed ≠ 0).map
          (fun i => (readHeader file).1.centralDirSize + 22
            + ((List.range i).map fun j => 30 + (recordAt file j).nameLength).sum) ∧
      ∀ i ≤ numRecords file,
        (tocAt file i).keyRehashCounter =
          (readHeader file).1.centralDirSize + 22
            + ((List.range i).map fun j => 30 + (recordAt file j).nameLength).sum := by
  have hn := numRecords_lt file
  refine ⟨_, readToc_completed file hfit, ?_, fun i hi => tocAt_counter file i (by omega)⟩
  rw [tocAt_files, List.map_map]
  apply List.map_congr_left
  intro i hi
  have hi2 : i < numRecords file := List.mem_range.mp (List.mem_filter.mp hi).1
  exact tocAt_counter file i (by omega)

set_option maxRecDepth 100000 in
theorem keyRehashCounter_replay_witness :
    (∀ j < numRecords sampleFile, (recordAt sampleFile j).nameLength < MAX_PATH) ∧
      ∃ st, readToc sampleFile = .completed st ∧
        st.files.map (fun fi => fi.keyRehashCounter) = [203, 238] := by
  refine ⟨by decide, ?_⟩
  obtain ⟨st, h1, h2, _⟩ := keyRehashCounter_replay sampleFile (by decide)
  refine ⟨st, h1, ?_⟩
  rw [h2]
  decide

theorem cString_of_no_zero (l : List Nat) (h : ∀ c ∈ l, c ≠ 0) : cString l = l := by
  induction l with
  | nil => rfl
  | cons a l ih =>
    have ha : a ≠ 0 := h a (List.mem_cons_self _ _)
    have hl : cString l = l := ih fun c hc => h c (List.mem_cons_of_mem _ hc)
    unfold cString at hl ⊢
    simp [List.takeWhile_cons, ha, hl]

set_option maxRecDepth 100000 in
/-- C6, as stated, fails: in `nulNameFile` every name fits the scratch buffer,
the one directory record has `nameLength = 2` and the two bytes after its
header decrypt to `[97, 0]`, yet the entry the pass produces is named `[97]`. -/
theorem name_stops_at_zero_byte :
    (∀ j < numRecords nulNameFile, (recordAt nulNameFile j).nameLength < MAX_PATH) ∧
      (recordAt nulNameFile 0).nameLength = 2 ∧
      nameBytesAt nulNameFile (tocAt nulNameFile 0) = [97, 0] ∧
      readToc nulNameFile = .completed
        { tocPtr := 81, fullKey := 383383762, keyRehashCounter := 102
          files := [{ offset := 0, keyRehashCounter := 70, name := [97] }] } := by
  decide

/-- C6, amended: for every archive whose directory records all have a decrypted
`nameLength` below 260, the pass completes and its output is, in directory
order, exactly one entry per record of non-zero `sizeUncompressed`, with
`offset` the record's `relOffset`, `keyRehashCounter` the running counter at
that record, and `name` the `nameLength` bytes after the 46-byte header,
decrypted with the key the header left (the round's key advanced 46 times),
up to the first zero byte: all of them when none is zero. -/
theorem readToc_entries (file : MappedWinFile)
    (hfit : ∀ j < numRecords file, (recordAt file j).nameLength < MAX_PATH) :
    ∃ st, readToc file = .completed st ∧
      st.files =
        ((List.range (numRecords file)).filter
            fun i => (recordAt file i).sizeUncompressed ≠ 0).map
          (fun i =>
            { offset := (recordAt file i).relOffset
              keyRehashCounter := (tocAt file i).keyRehashCounter
              name := ((fsDecyper
                  (file.read ((tocAt file i).tocPtr + 46) (recordAt file i).nameLength)
                  (rehashTimes 46 (tocAt file i).fullKey)).1).takeWhile fun c => c != 0 }) ∧
      ∀ i, (∀ c ∈ nameBytesAt file (tocAt file i), c ≠ 0) →
        (entryAt file (tocAt file i)).name =
          (fsDecyper (file.read ((tocAt file i).tocPtr + 46) (recordAt file i).nameLength)
            (rehashTimes 46 (tocAt file i).fullKey)).1 := by
  refine ⟨_, readToc_completed file hfit, ?_, ?_⟩
  · rw [tocAt_files]
    apply List.map_congr_left
    intro i _
    simp only [entryAt, cString, nameBytesAt_eq, recordAt]
  · intro i h
    simp only [entryAt, recordAt]
    rw [cString_of_no_zero _ h, nameBytesAt_eq]

set_option maxRecDepth 100000 in
theorem readToc_entries_witness :
    (∀ j < numRecords sampleFile, (recordAt sampleFile j).nameLength < MAX_PATH) ∧
      ∃ st, readToc sampleFile = .completed st ∧
        st.files = [{ offset := 32, keyRehashCounter := 203, name := [97, 46, 116, 120, 116] },
                    { offset := 70, keyRehashCounter := 238, name := [98] }] := by
  refine ⟨by decide, ?_⟩
  obtain ⟨st, h1, h2, _⟩ := readToc_entries sampleFile (by decide)
  refine ⟨st, h1, ?_⟩
  rw [h2]
  decide

/-- C7: for every archive whose names fit the scratch buffer, the pass
completes, every entry of its output was filled from a directory record of
non-zero `sizeUncompressed`, there are as many entries as such records, and a
round on a zero-size record leaves the output as it was while the key still
advances `46 + nameLength + extraFieldLen + commentLen` steps and the counter
still grows by `nameLength + 30`. -/
theorem zero_size_skipped (file : MappedWinFile)
    (hfit : ∀ j < numRecords file, (recordAt file j).nameLength < MAX_PATH) :
    ∃ st, readToc file = .completed st ∧
      (∀ fi ∈ st.files, ∃ i < numRecords file,
        (recordAt file i).sizeUncompressed ≠ 0 ∧ fi = entryAt file (tocAt file i)) ∧
      st.files.length =
        ((List.range (numRecords file)).filter
          fun i => (recordAt file i).sizeUncompressed ≠ 0).length ∧
      ∀ i < numRecords file, (recordAt file i).sizeUncompressed = 0 →
        (tocAt file (i + 1)).files = (tocAt file i).files ∧
        (tocAt file (i + 1)).fullKey =
          rehashTimes (46 + (recordAt file i).nameLength + (recordAt file i).extraFieldLen
            + (recordAt file i).commentLen) (tocAt file i).fullKey ∧
        (tocAt file (i + 1)).keyRehashCounter =
          (tocAt file i).keyRehashCounter + (recordAt file i).nameLength + 30 := by
  have hn := numRecords_lt file
  refine ⟨_, readToc_completed file hfit, ?_, ?_, ?_⟩
  · intro fi hfi
    rw [tocAt_files] at hfi
    obtain ⟨i, hi, rfl⟩ := List.mem_map.mp hfi
    have hi2 := List.mem_filter.mp hi
    exact ⟨i, List.mem_range.mp hi2.1, by simpa using hi2.2, rfl⟩
  · rw [tocAt_files, List.length_map]
  · intro i hi hz
    refine ⟨?_, ?_, ?_⟩
    · rw [tocAt_succ, tocBody_files]
      simp only [recordAt] at hz
      simp [hz]
    · rw [tocAt_succ, tocBody_fullKey]
      rfl
    · have hb := replayCount_le file i
      have hl := nameLength_lt file (tocAt file i)
      rw [tocAt_counter file (i + 1) (by omega), tocAt_counter file i (by omega),
        replayCount_succ]
      omega

set_option maxRecDepth 100000 in
theorem zero_size_skipped_witness :
    (∀ j < numRecords sampleFile, (recordAt sampleFile j).nameLength < MAX_PATH) ∧
      (recordAt sampleFile 0).sizeUncompressed = 0 ∧
      ∃ st, readToc sampleFile = .completed st ∧ st.files.length = 2 := by
  refine ⟨by decide, by decide, ?_⟩
  obtain ⟨st, h1, _, h3, _⟩ := zero_size_skipped sampleFile (by decide)
  refine ⟨st, h1, ?_⟩
  rw [h3]
  decide

set_option maxRecDepth 100000 in
/-- C9, as stated, fails: the end record of `badMagicFile` decrypts to the
magic 0, not `0x06054B50`, yet the directory pass completes with one entry and
the unpack pass hands its payload byte to `DumpToWinFile`. -/
theorem bad_magic_still_unpacked :
    (readHeader badMagicFile).1.magic = 0 ∧
      (readHeader badMagicFile).1.magic ≠ 0x06054B50 ∧
      readToc badMagicFile = .completed
        { tocPtr := 79, fullKey := 605629411, keyRehashCounter := 100
          files := [{ offset := 0, keyRehashCounter := 69, name := [120] }] } ∧
      wmain sampleEnv badMagicFile () = .completed
        [{ name := [120]
           derivedKey := 605629411
           headerBytes := [80, 75, 3, 4, 20, 0, 0, 0, 0, 0, 0, 96, 0, 80, 68, 51, 34, 17,
                           1, 0, 0, 0, 1, 0, 0, 0, 1, 0, 0, 0]
           localHeader :=
             { magic := 67324752, verMinimum := 20, flags := 0, compression := 0
               lastModTime := 24576, lastModDate := 20480, checkSum := 287454020
               sizeCompressed := 1, sizeUncompressed := 1, nameLength := 1
               extraFieldLen := 0 }
           dataPtr := 31
           streamIn := none
           dumped := some [90]
           report := Report.succeeded }] := by
  decide

/-- C9, amended: for every archive the directory pass makes no check of the end
record's magic and raises no format error: whatever magic the last 22 bytes
decrypt to, the pass is the walk over `numCentralRecordsHere` records from
`centralDirOffset` that the same record with the magic `0x06054B50` gets; the
magic of the record has no part in it. -/
theorem dirPass_ignores_magic (file : MappedWinFile) :
    (∀ (hdr : FSPakHeader) (fullKey m : Nat),
      dirPass file { hdr with magic := m } fullKey = dirPass file hdr fullKey) ∧
      readToc file =
        dirPass file { (readHeader file).1 with magic := 0x06054B50 }
          (rehashTimes 22 kDataKeyInit) ∧
      readToc file =
        tocLoop file (readHeader file).1.numCentralRecordsHere
          { tocPtr := (readHeader file).1.centralDirOffset
            fullKey := rehashTimes 22 kDataKeyInit
            keyRehashCounter := (readHeader file).1.centralDirSize + 22
            files := [] } := by
  have hc := centralDirSize_lt file
  have hmod : ((readHeader file).1.centralDirSize + 22) % 2 ^ 64
      = (readHeader file).1.centralDirSize + 22 := Nat.mod_eq_of_lt (by omega)
  refine ⟨fun _ _ _ => rfl, ?_, ?_⟩
  · rw [← readHeader_key]
    rfl
  · rw [← readHeader_key, ← hmod]
    rfl

set_option maxRecDepth 100000 in
/-- C10, the code at the failing input: the one directory record of
`longNameFile` decrypts to `nameLength = 300`; no check is made, the round
copies the name into the 260 bytes of `tmp` and writes past its end; no format
error is raised. -/
theorem long_name_overruns_tmp :
    (recordAt longNameFile 0).nameLength = 300 ∧ MAX_PATH = 260 ∧
      readToc longNameFile = .tmpOverrun ∧
      wmain sampleEnv longNameFile () = .tmpOverrun := by
  decide

/-! ## Lemmas on the unpack loop -/

theorem unpackBody_fresh {σ : Type} (env : Collaborators σ) (file : MappedWinFile)
    (k k2 : Nat) (disk : σ) (fi : FileInfo) :
    unpackBody env file k disk fi = unpackBody env file k2 disk fi := rfl

theorem unpackBody_derivedKey {σ : Type} (env : Collaborators σ) (file : MappedWinFile)
    (k : Nat) (disk : σ) (fi : FileInfo) :
    (unpackBody env file k disk fi).1.derivedKey
      = rehashTimes fi.keyRehashCounter kDataKeyInit := by
  unfold unpackBody
  simp only
  split
  · rfl
  · split <;> rfl

theorem unpackBody_headerBytes {σ : Type} (env : Collaborators σ) (file : MappedWinFile)
    (k : Nat) (disk : σ) (fi : FileInfo) :
    (unpackBody env file k disk fi).1.headerBytes =
      (fsDecyper (file.read fi.offset 30) (rehashTimes fi.keyRehashCounter kDataKeyInit)).1 := by
  unfold unpackBody
  simp only
  split
  · rfl
  · split <;> rfl

theorem unpackBody_localHeader {σ : Type} (env : Collaborators σ) (file : MappedWinFile)
    (k : Nat) (disk : σ) (fi : FileInfo) :
    (unpackBody env file k disk fi).1.localHeader =
      FSPakLocalFileHeader.ofBytes (unpackBody env file k disk fi).1.headerBytes := by
  unfold unpackBody
  simp only
  split
  · rfl
  · split <;> rfl

theorem unpackLoop_cons {σ : Type} (env : Collaborators σ) (file : MappedWinFile)
    (fi : FileInfo) (rest : List FileInfo) (k : Nat) (disk : σ) :
    unpackLoop env file (fi :: rest) k disk =
      ((unpackBody env file k disk fi).1 ::
          (unpackLoop env file rest (unpackBody env file k disk fi).2.1
            (unpackBody env file k disk fi).2.2).1,
        (unpackLoop env file rest (unpackBody env file k disk fi).2.1
          (unpackBody env file k disk fi).2.2).2) := rfl

theorem unpackLoop_map {σ α : Type} (env : Collaborators σ) (file : MappedWinFile)
    (f : Unpacked → α)
    (hf : ∀ (k k2 : Nat) (d d2 : σ) (fi : FileInfo),
      f (unpackBody env file k d fi).1 = f (unpackBody env file k2 d2 fi).1)
    (files : List FileInfo) (k k2 : Nat) (d d2 : σ) :
    (unpackLoop env file files k d).1.map f
      = files.map fun fi => f (unpackBody env file k2 d2 fi).1 := by
  induction files generalizing k d with
  | nil => rfl
  | cons fi rest ih =>
    rw [unpackLoop_cons, List.map_cons, List.map_cons, ih, hf k k2 d d2 fi]

/-- C5: for every entry, whatever `fullKey` holds when its round starts, the
round decrypts the 30 bytes at `offset` with the key reset to `kDataKeyInit`
and advanced `keyRehashCounter` times: byte `k` of the header is the archive
byte XOR the key byte of the initial key advanced `keyRehashCounter + k + 1`
times. The round's results do not depend on the incoming key, key and header
do not depend on the file system the earlier rounds left either, and in the
loop every entry gets the key replayed from the initial one. -/
theorem unpack_header_key {σ : Type} (env : Collaborators σ) (file : MappedWinFile)
    (fullKey : Nat) (disk : σ) (fi : FileInfo) :
    kDataKeyInit = 0xA2A2A2A2 ∧
      (unpackBody env file fullKey disk fi).1.derivedKey
        = rehashTimes fi.keyRehashCounter kDataKeyInit ∧
      (unpackBody env file fullKey disk fi).1.headerBytes
        = (fsDecyper (file.read fi.offset 30)
            (unpackBody env file fullKey disk fi).1.derivedKey).1 ∧
      (unpackBody env file fullKey disk fi).1.headerBytes.length = 30 ∧
      (∀ k < 30, (unpackBody env file fullKey disk fi).1.headerBytes[k]? =
        some (file.byteAt (fi.offset + k)
          ^^^ keyByte (rehashTimes (fi.keyRehashCounter + k + 1) kDataKeyInit))) ∧
      (unpackBody env file fullKey disk fi).1.localHeader
        = FSPakLocalFileHeader.ofBytes (unpackBody env file fullKey disk fi).1.headerBytes ∧
      (∀ otherKey, unpackBody env file otherKey disk fi = unpackBody env file fullKey disk fi) ∧
      (∀ (otherKey : Nat) (otherDisk : σ),
        (unpackBody env file otherKey otherDisk fi).1.derivedKey
            = (unpackBody env file fullKey disk fi).1.derivedKey ∧
          (unpackBody env file otherKey otherDisk fi).1.headerBytes
            = (unpackBody env file fullKey disk fi).1.headerBytes ∧
          (unpackBody env file otherKey otherDisk fi).1.localHeader
            = (unpackBody env file fullKey disk fi).1.localHeader) ∧
      (∀ files : List FileInfo,
        (unpackLoop env file files fullKey disk).1.map (fun u => u.derivedKey)
          = files.map fun e => rehashTimes e.keyRehashCounter kDataKeyInit) := by
  refine ⟨rfl, unpackBody_derivedKey _ _ _ _ _, ?_, ?_, ?_, unpackBody_localHeader _ _ _ _ _,
    fun _ => rfl, ?_, ?_⟩
  · rw [unpackBody_headerBytes, unpackBody_derivedKey]
  · rw [unpackBody_headerBytes, fsDecyper_length, read_length]
  · intro k hk
    rw [unpackBody_headerBytes, fsDecyper_getElem?, read_getElem? _ _ _ _ hk, Option.map_some',
      Nat.mod_eq_of_lt (xor_byte_lt _ _ (keyByte_lt _) (byteAt_lt _ _)), Nat.xor_comm,
      ← rehashTimes_add, Nat.add_assoc]
  · intro otherKey otherDisk
    refine ⟨?_, ?_, ?_⟩
    · rw [unpackBody_derivedKey, unpackBody_derivedKey]
    · rw [unpackBody_headerBytes, unpackBody_headerBytes]
    · rw [unpackBody_localHeader, unpackBody_localHeader, unpackBody_headerBytes,
        unpackBody_headerBytes]
  · intro files
    rw [unpackLoop_map env file (fun u => u.derivedKey)
      (fun k k2 d d2 e => by simp only [unpackBody_derivedKey])
      files fullKey fullKey disk disk]
    apply List.map_congr_left
    intro e _
    exact unpackBody_derivedKey _ _ _ _ _

theorem fsDecyper_append (A B : List Nat) (S : Nat) :
    fsDecyper (A ++ B) S =
      ((fsDecyper A S).1 ++ (fsDecyper B (fsDecyper A S).2).1,
        (fsDecyper B (fsDecyper A S).2).2) := by
  induction A generalizing S with
  | nil => rfl
  | cons a A ih => simp only [List.cons_append, fsDecyper_cons, ih]

theorem read_append (file : MappedWinFile) (off a b : Nat) :
    file.read off (a + b) = file.read off a ++ file.read (off + a) b := by
  simp only [MappedWinFile.read, List.range_add, List.map_append, List.map_map]
  congr 1
  apply List.map_congr_left
  intro i _
  simp [Function.comp, Nat.add_assoc]

/-- C12: for every starting state `S` and any two buffers `B1`, `B2` of the
same length `n`, `fsDecyper` leaves the same key after `B1` as after `B2`, and
that key is `S` advanced exactly `n` times by the bare loop of lines 220-222:
one step per byte, whatever the bytes are. -/
theorem fsDecyper_key_data_independent (S : Nat) (B1 B2 : List Nat)
    (hlen : B1.length = B2.length) :
    (fsDecyper B1 S).2 = (fsDecyper B2 S).2 ∧
      (fsDecyper B1 S).2 = rehashTimes B1.length S ∧
      (fsDecyper B2 S).2 = rehashTimes B1.length S := by
  rw [fsDecyper_key, fsDecyper_key, hlen]
  exact ⟨rfl, rfl, rfl⟩

theorem fsDecyper_key_data_independent_witness :
    [1, 2, 3].length = [200, 0, 77].length ∧
      (fsDecyper [1, 2, 3] kDataKeyInit).2 = (fsDecyper [200, 0, 77] kDataKeyInit).2 :=
  ⟨by decide,
    (fsDecyper_key_data_independent kDataKeyInit [1, 2, 3] [200, 0, 77] (by decide)).1⟩

/-- C17: for all buffers `A`, `B` and every starting state `S`, `fsDecyper`
over `A ++ B` from `S` gives the bytes of the run over `A` from `S` followed
by those of the run over `B` from the key `A` left, and the same final key; so
the record header and the name of one directory round, decrypted one after the
other with the running key, are the decryption of the `46 + nameLength` bytes
at `tocPtr` as one range. -/
theorem fsDecyper_concat (A B : List Nat) (S : Nat) :
    (fsDecyper (A ++ B) S).1 = (fsDecyper A S).1 ++ (fsDecyper B (fsDecyper A S).2).1 ∧
      (fsDecyper (A ++ B) S).2 = (fsDecyper B (fsDecyper A S).2).2 ∧
      ∀ (file : MappedWinFile) (st : TocState),
        (fsDecyper (file.read st.tocPtr (46 + (fileRecAt file st).nameLength)) st.fullKey).1
          = (fsDecyper (file.read st.tocPtr 46) st.fullKey).1 ++ nameBytesAt file st := by
  refine ⟨by rw [fsDecyper_append], by rw [fsDecyper_append], ?_⟩
  intro file st
  rw [read_append, fsDecyper_append]
  rfl

/-! ## Further claims about the directory pass -/

theorem keySteps_succ (file : MappedWinFile) (i : Nat) :
    keySteps file (i + 1) =
      keySteps file i + (46 + (recordAt file i).nameLength + (recordAt file i).extraFieldLen
        + (recordAt file i).commentLen) := by
  simp [keySteps, List.range_succ, Nat.add_assoc]

theorem tocOffset_succ (file : MappedWinFile) (i : Nat) :
    tocOffset file (i + 1) = tocOffset file i + (46 + (recordAt file i).nameLength) := by
  simp [tocOffset, List.range_succ, Nat.add_assoc]

theorem tocInit_fullKey (hdr : FSPakHeader) (k : Nat) : (tocInit hdr k).fullKey = k := rfl

theorem tocInit_tocPtr (hdr : FSPakHeader) (k : Nat) :
    (tocInit hdr k).tocPtr = hdr.centralDirOffset := rfl

theorem tocAt_fullKey (file : MappedWinFile) (i : Nat) :
    (tocAt file i).fullKey = rehashTimes (keySteps file i) kDataKeyInit := by
  induction i with
  | zero =>
    have h0 : keySteps file 0 = 22 := by simp [keySteps]
    rewrite [h0]
    exact (tocInit_fullKey _ _).trans (readHeader_key file)
  | succ i ih =>
    rewrite [tocAt_succ, tocBody_fullKey, ih, ← rehashTimes_add, keySteps_succ]
    exact rfl

theorem tocAt_tocPtr (file : MappedWinFile) (i : Nat) :
    (tocAt file i).tocPtr = tocOffset file i := by
  induction i with
  | zero =>
    have h0 : tocOffset file 0 = (readHeader file).1.centralDirOffset := by simp [tocOffset]
    rewrite [h0]
    exact tocInit_tocPtr _ _
  | succ i ih =>
    rewrite [tocAt_succ, tocBody_tocPtr, ih, tocOffset_succ, Nat.add_assoc]
    exact rfl

theorem tocOffset_lt (file : MappedWinFile) (i : Nat) :
    tocOffset file i < 4294967296 + i * 65582 := by
  induction i with
  | zero =>
    have : (readHeader file).1.centralDirOffset < 4294967296 :=
      u32At_lt _ (fsDecyper_lt _ _) _
    simpa [tocOffset] using this
  | succ i ih =>
    have := nameLength_lt file (tocAt file i)
    rw [tocOffset_succ]
    simp only [recordAt]
    omega

theorem tocLoop_reaches (file : MappedWinFile) (i : Nat)
    (hfit : ∀ j < i, (recordAt file j).nameLength < MAX_PATH) :
    tocLoop file i (tocInit (readHeader file).1 (readHeader file).2)
      = .completed (tocAt file i) :=
  tocLoop_completed file _ _ hfit

/-- C15: for every archive and every round `i` that the directory loop reaches
(the names of the earlier records fit the scratch buffer), the key with which
the record header of round `i` is decrypted is `kDataKeyInit` advanced exactly
`22 + sum over j < i of (46 + nameLength j + extraFieldLen j + commentLen j)`
times; and each round leaves the key that decrypted its header and name,
advanced `extraFieldLen + commentLen` further steps. -/
theorem fullKey_at_record (file : MappedWinFile) (i : Nat)
    (hfit : ∀ j < i, (recordAt file j).nameLength < MAX_PATH) :
    ∃ st, tocLoop file i (tocInit (readHeader file).1 (readHeader file).2) = .completed st ∧
      st.fullKey =
        rehashTimes
          (22 + ((List.range i).map fun j =>
            46 + (recordAt file j).nameLength + (recordAt file j).extraFieldLen
              + (recordAt file j).commentLen).sum)
          kDataKeyInit ∧
      fileRecAt file st =
        FSPakFileRecord.ofBytes
          (fsDecyper (file.read st.tocPtr 46)
            (rehashTimes
              (22 + ((List.range i).map fun j =>
                46 + (recordAt file j).nameLength + (recordAt file j).extraFieldLen
                  + (recordAt file j).commentLen).sum)
              kDataKeyInit)).1 ∧
      (tocBody file st).fullKey =
        rehashTimes ((fileRecAt file st).extraFieldLen + (fileRecAt file st).commentLen)
          (fsDecyper (file.read st.tocPtr (46 + (fileRecAt file st).nameLength)) st.fullKey).2 := by
  refine ⟨_, tocLoop_reaches file i hfit, tocAt_fullKey file i, ?_, ?_⟩
  · rw [fileRecAt, tocAt_fullKey]
    rfl
  · rw [tocBody_fullKey, fsDecyper_key, read_length, ← rehashTimes_add]
    congr 1
    omega

set_option maxRecDepth 100000 in
theorem fullKey_at_record_witness :
    (∀ j < 2, (recordAt sampleFile j).nameLength < MAX_PATH) ∧
      ∃ st, tocLoop sampleFile 2
          (tocInit (readHeader sampleFile).1 (readHeader sampleFile).2) = .completed st ∧
        st.fullKey = rehashTimes 124 kDataKeyInit := by
  refine ⟨by decide, ?_⟩
  obtain ⟨st, h1, h2, _⟩ := fullKey_at_record sampleFile 2 (by decide)
  refine ⟨st, h1, ?_⟩
  rw [h2]
  decide

/-- C18: for every archive and every round `i` below `numCentralRecordsHere`
that the directory loop reaches, the record header of round `i` is read at
offset `centralDirOffset + sum over j < i of (46 + nameLength j)`: its byte `k`
is the memory byte at that offset plus `k`. The position moves past headers
and names only; `extraFieldLen` and `commentLen` of earlier records have no
part in it. -/
theorem tocPtr_at_record (file : MappedWinFile) (i : Nat) (hi : i < numRecords file)
    (hfit : ∀ j < i, (recordAt file j).nameLength < MAX_PATH) :
    ∃ st, tocLoop file i (tocInit (readHeader file).1 (readHeader file).2) = .completed st ∧
      st.tocPtr =
        (readHeader file).1.centralDirOffset
          + ((List.range i).map fun j => 46 + (recordAt file j).nameLength).sum ∧
      (tocBody file st).tocPtr = st.tocPtr + 46 + (fileRecAt file st).nameLength ∧
      ∀ k < 46,
        (file.read st.tocPtr 46)[k]? =
          some (file.ptr ((readHeader file).1.centralDirOffset
            + ((List.range i).map fun j => 46 + (recordAt file j).nameLength).sum + k) % 256) := by
  refine ⟨_, tocLoop_reaches file i hfit, tocAt_tocPtr file i, rfl, ?_⟩
  intro k hk
  have hn := numRecords_lt file
  have hb := tocOffset_lt file i
  have hlt : tocOffset file i + k < 2 ^ 64 := by
    have : i * 65582 ≤ 65536 * 65582 := Nat.mul_le_mul_right _ (by omega)
    omega
  rw [read_getElem? _ _ _ _ hk, tocAt_tocPtr, MappedWinFile.byteAt, Nat.mod_eq_of_lt hlt]
  rfl

set_option maxRecDepth 100000 in
theorem tocPtr_at_record_witness :
    2 < numRecords sampleFile ∧
      (∀ j < 2, (recordAt sampleFile j).nameLength < MAX_PATH) ∧
      ∃ st, tocLoop sampleFile 2
          (tocInit (readHeader sampleFile).1 (readHeader sampleFile).2) = .completed st ∧
        st.tocPtr = 206 := by
  refine ⟨by decide, by decide, ?_⟩
  obtain ⟨st, h1, h2, _⟩ := tocPtr_at_record sampleFile 2 (by decide) (by decide)
  refine ⟨st, h1, ?_⟩
  rw [h2]
  decide

theorem replayCount_zero (file : MappedWinFile) :
    replayCount file 0 = (readHeader file).1.centralDirSize + 22 := by
  simp [replayCount]

theorem entryAt_counter (file : MappedWinFile) (st : TocState) :
    (entryAt file st).keyRehashCounter = st.keyRehashCounter := rfl

/-- C19: for every archive whose names fit the scratch buffer and whose
`centralDirSize` is the sum over all `numCentralRecordsHere` records of
`46 + nameLength + extraFieldLen + commentLen`, the key the directory pass
leaves is `kDataKeyInit` advanced `centralDirSize + 22` times: the key the
unpack pass derives for every entry with that replay count, which is the count
the first directory record gets. -/
theorem final_key_is_first_replay (file : MappedWinFile)
    (hfit : ∀ j < numRecords file, (recordAt file j).nameLength < MAX_PATH)
    (hsize : (readHeader file).1.centralDirSize =
      ((List.range (numRecords file)).map fun j =>
        46 + (recordAt file j).nameLength + (recordAt file j).extraFieldLen
          + (recordAt file j).commentLen).sum) :
    ∃ st, readToc file = .completed st ∧
      st.fullKey = rehashTimes ((readHeader file).1.centralDirSize + 22) kDataKeyInit ∧
      (∀ (σ : Type) (env : Collaborators σ) (k : Nat) (disk : σ) (fi : FileInfo),
        fi.keyRehashCounter = (readHeader file).1.centralDirSize + 22 →
          (unpackBody env file k disk fi).1.derivedKey = st.fullKey) ∧
      (entryAt file (tocAt file 0)).keyRehashCounter
        = (readHeader file).1.centralDirSize + 22 := by
  have hkey : (tocAt file (numRecords file)).fullKey
      = rehashTimes ((readHeader file).1.centralDirSize + 22) kDataKeyInit := by
    rewrite [tocAt_fullKey, hsize, Nat.add_comm]
    exact rfl
  refine ⟨_, readToc_completed file hfit, hkey, ?_, ?_⟩
  · intro σ env k disk fi hfi
    rewrite [unpackBody_derivedKey, hfi, hkey]
    exact rfl
  · rewrite [entryAt_counter, tocAt_counter file 0 (by omega)]
    exact replayCount_zero file

set_option maxRecDepth 100000 in
theorem final_key_is_first_replay_witness :
    (∀ j < numRecords sampleFile, (recordAt sampleFile j).nameLength < MAX_PATH) ∧
      (readHeader sampleFile).1.centralDirSize = 149 ∧
      ∃ st, readToc sampleFile = .completed st ∧
        st.fullKey = rehashTimes 171 kDataKeyInit := by
  refine ⟨by decide, by decide, ?_⟩
  obtain ⟨st, h1, h2, _⟩ := final_key_is_first_replay sampleFile (by decide) (by decide)
  refine ⟨st, h1, ?_⟩
  rewrite [h2]
  decide

/-! ## Further claims about the unpack pass -/

/-- C16: the three headers are packed little-endian records of 22, 46 and 30
bytes (the sums of their field widths, nothing in between); every field is
read at the offset its declaration order gives, so that in the end record
`numCentralRecordsHere` is bytes 8-9, `centralDirSize` bytes 12-15 and
`centralDirOffset` bytes 16-19; in the directory record `sizeUncompressed` is
bytes 24-27, `nameLength` 28-29, `extraFieldLen` 30-31, `commentLen` 32-33 and
`relOffset` 42-45; in the local header `compression` is bytes 8-9,
`sizeCompressed` 18-21, `sizeUncompressed` 22-25, `nameLength` 26-27 and
`extraFieldLen` 28-29. -/
theorem header_layouts :
    packedSize FSPakHeader.fieldWidths = 22 ∧
      packedSize FSPakFileRecord.fieldWidths = 46 ∧
      packedSize FSPakLocalFileHeader.fieldWidths = 30 ∧
      (∀ b : List Nat,
        FSPakHeader.ofBytes b =
          { magic := u32At b (packedOffset FSPakHeader.fieldWidths 0)
            diskNum := u16At b (packedOffset FSPakHeader.fieldWidths 1)
            centralDisk := u16At b (packedOffset FSPakHeader.fieldWidths 2)
            numCentralRecordsHere := u16At b (packedOffset FSPakHeader.fieldWidths 3)
            numCentralRecordsTotal := u16At b (packedOffset FSPakHeader.fieldWidths 4)
            centralDirSize := u32At b (packedOffset FSPakHeader.fieldWidths 5)
            centralDirOffset := u32At b (packedOffset FSPakHeader.fieldWidths 6)
            commentLen := u16At b (packedOffset FSPakHeader.fieldWidths 7) } ∧
        (FSPakHeader.ofBytes b).numCentralRecordsHere = b.getD 8 0 + 256 * b.getD 9 0 ∧
        (FSPakHeader.ofBytes b).centralDirSize =
          b.getD 12 0 + 256 * b.getD 13 0 + 65536 * b.getD 14 0 + 16777216 * b.getD 15 0 ∧
        (FSPakHeader.ofBytes b).centralDirOffset =
          b.getD 16 0 + 256 * b.getD 17 0 + 65536 * b.getD 18 0 + 16777216 * b.getD 19 0) ∧
      (∀ b : List Nat,
        FSPakFileRecord.ofBytes b =
          { magic := u32At b (packedOffset FSPakFileRecord.fieldWidths 0)
            verMade := u16At b (packedOffset FSPakFileRecord.fieldWidths 1)
            verMinimum := u16At b (packedOffset FSPakFileRecord.fieldWidths 2)
            flags := u16At b (packedOffset FSPakFileRecord.fieldWidths 3)
            compression := u16At b (packedOffset FSPakFileRecord.fieldWidths 4)
            lastModTime := u16At b (packedOffset FSPakFileRecord.fieldWidths 5)
            lastModDate := u16At b (packedOffset FSPakFileRecord.fieldWidths 6)
            checkSum := u32At b (packedOffset FSPakFileRecord.fieldWidths 7)
            sizeCompressed := u32At b (packedOffset FSPakFileRecord.fieldWidths 8)
            sizeUncompressed := u32At b (packedOffset FSPakFileRecord.fieldWidths 9)
            nameLength := u16At b (packedOffset FSPakFileRecord.fieldWidths 10)
            extraFieldLen := u16At b (packedOffset FSPakFileRecord.fieldWidths 11)
            commentLen := u16At b (packedOffset FSPakFileRecord.fieldWidths 12)
            disk := u16At b (packedOffset FSPakFileRecord.fieldWidths 13)
            intArrtibs := u16At b (packedOffset FSPakFileRecord.fieldWidths 14)
            exAttribs := u32At b (packedOffset FSPakFileRecord.fieldWidths 15)
            relOffset := u32At b (packedOffset FSPakFileRecord.fieldWidths 16) } ∧
        (FSPakFileRecord.ofBytes b).sizeUncompressed =
          b.getD 24 0 + 256 * b.getD 25 0 + 65536 * b.getD 26 0 + 16777216 * b.getD 27 0 ∧
        (FSPakFileRecord.ofBytes b).nameLength = b.getD 28 0 + 256 * b.getD 29 0 ∧
        (FSPakFileRecord.ofBytes b).extraFieldLen = b.getD 30 0 + 256 * b.getD 31 0 ∧
        (FSPakFileRecord.ofBytes b).commentLen = b.getD 32 0 + 256 * b.getD 33 0 ∧
        (FSPakFileRecord.ofBytes b).relOffset =
          b.getD 42 0 + 256 * b.getD 43 0 + 65536 * b.getD 44 0 + 16777216 * b.getD 45 0) ∧
      (∀ b : List Nat,
        FSPakLocalFileHeader.ofBytes b =
          { magic := u32At b (packedOffset FSPakLocalFileHeader.fieldWidths 0)
            verMinimum := u16At b (packedOffset FSPakLocalFileHeader.fieldWidths 1)
            flags := u16At b (packedOffset FSPakLocalFileHeader.fieldWidths 2)
            compression := u16At b (packedOffset FSPakLocalFileHeader.fieldWidths 3)
            lastModTime := u16At b (packedOffset FSPakLocalFileHeader.fieldWidths 4)
            lastModDate := u16At b (packedOffset FSPakLocalFileHeader.fieldWidths 5)
            checkSum := u32At b (packedOffset FSPakLocalFileHeader.fieldWidths 6)
            sizeCompressed := u32At b (packedOffset FSPakLocalFileHeader.fieldWidths 7)
            sizeUncompressed := u32At b (packedOffset FSPakLocalFileHeader.fieldWidths 8)
            nameLength := u16At b (packedOffset FSPakLocalFileHeader.fieldWidths 9)
            extraFieldLen := u16At b (packedOffset FSPakLocalFileHeader.fieldWidths 10) } ∧
        (FSPakLocalFileHeader.ofBytes b).compression = b.getD 8 0 + 256 * b.getD 9 0 ∧
        (FSPakLocalFileHeader.ofBytes b).sizeCompressed =
          b.getD 18 0 + 256 * b.getD 19 0 + 65536 * b.getD 20 0 + 16777216 * b.getD 21 0 ∧
        (FSPakLocalFileHeader.ofBytes b).sizeUncompressed =
          b.getD 22 0 + 256 * b.getD 23 0 + 65536 * b.getD 24 0 + 16777216 * b.getD 25 0 ∧
        (FSPakLocalFileHeader.ofBytes b).nameLength = b.getD 26 0 + 256 * b.getD 27 0 ∧
        (FSPakLocalFileHeader.ofBytes b).extraFieldLen = b.getD 28 0 + 256 * b.getD 29 0) := by
  refine ⟨by decide, by decide, by decide, fun b => ⟨rfl, rfl, rfl, rfl⟩,
    fun b => ⟨rfl, rfl, rfl, rfl, rfl, rfl⟩, fun b => ⟨rfl, rfl, rfl, rfl, rfl, rfl⟩⟩

theorem read_size_irrelevant (p : Nat → Nat) (L L2 off len : Nat) :
    MappedWinFile.read { size := L, ptr := p } off len
      = MappedWinFile.read { size := L2, ptr := p } off len := rfl

end Fsex
